import Mathlib

set_option maxRecDepth 100000

/-!
Verification development for the SSM-ClockKe v2.1 kernel
(clockke_run_v2_1.py, clockke_desktop_v2_1.py, clockke_verify_v2_1.py).

The stamp chain (make_stamp / verify) is embedded with an executable
SHA-256 over byte lists (Nat < 256); strings are encoded to UTF-8 bytes.
The numeric alignment source and band classifier are embedded over an
ordered field (executably over Rat); the (U, W) accumulation kernel is
embedded over Real, with tanh / log from Mathlib standing for the
corresponding double-precision math functions of the source.
-/

namespace ClockKe

/-- Truncation to a 32-bit word, `n % 2^32`. -/
def w32 (n : Nat) : Nat := n % 4294967296

/-- 32-bit right rotation by `n` of a word `x < 2^32`. -/
def rotr (n x : Nat) : Nat := x / 2 ^ n + x % 2 ^ n * 2 ^ (32 - n)

/-- Logical right shift by `n`. -/
def shr (n x : Nat) : Nat := x / 2 ^ n

def bigSigma0 (x : Nat) : Nat := rotr 2 x ^^^ rotr 13 x ^^^ rotr 22 x

def bigSigma1 (x : Nat) : Nat := rotr 6 x ^^^ rotr 11 x ^^^ rotr 25 x

def smallSigma0 (x : Nat) : Nat := rotr 7 x ^^^ rotr 18 x ^^^ shr 3 x

def smallSigma1 (x : Nat) : Nat := rotr 17 x ^^^ rotr 19 x ^^^ shr 10 x

/-- SHA-256 choice function `Ch(e,f,g)`; complement via xor with the 32-bit mask. -/
def chf (e f g : Nat) : Nat := (e &&& f) ^^^ ((e ^^^ 4294967295) &&& g)

/-- SHA-256 majority function `Maj(a,b,c)`. -/
def majf (a b c : Nat) : Nat := (a &&& b) ^^^ (a &&& c) ^^^ (b &&& c)

/-- The 64 SHA-256 round constants of FIPS 180-4, written in decimal. -/
def roundK : List Nat :=
  [1116352408, 1899447441, 3049323471, 3921009573, 961987163, 1508970993,
   2453635748, 2870763221, 3624381080, 310598401, 607225278, 1426881987,
   1925078388, 2162078206, 2614888103, 3248222580, 3835390401, 4022224774,
   264347078, 604807628, 770255983, 1249150122, 1555081692, 1996064986,
   2554220882, 2821834349, 2952996808, 3210313671, 3336571891, 3584528711,
   113926993, 338241895, 666307205, 773529912, 1294757372, 1396182291,
   1695183700, 1986661051, 2177026350, 2456956037, 2730485921, 2820302411,
   3259730800, 3345764771, 3516065817, 3600352804, 4094571909, 275423344,
   430227734, 506948616, 659060556, 883997877, 958139571, 1322822218,
   1537002063, 1747873779, 1955562222, 2024104815, 2227730452, 2361852424,
   2428436474, 2756734187, 3204031479, 3329325298]

/-- The eight working registers / hash words of SHA-256. -/
structure Hash8 where
  a : Nat
  b : Nat
  c : Nat
  d : Nat
  e : Nat
  f : Nat
  g : Nat
  h : Nat

/-- SHA-256 initial hash value of FIPS 180-4, written in decimal. -/
def initH : Hash8 :=
  ⟨1779033703, 3144134277, 1013904242, 2773480762,
   1359893119, 2600822924, 528734635, 1541459225⟩

/-- Extend the message schedule: `acc` holds the words produced so far,
newest first; each step prepends `σ1(w[i-2]) + w[i-7] + σ0(w[i-15]) + w[i-16]`.
The final list is returned oldest first. -/
def extendSched : Nat → List Nat → List Nat
  | 0, acc => acc.reverse
  | n + 1, acc =>
      let x := w32 (smallSigma1 (acc.getD 1 0) + acc.getD 6 0 +
                    smallSigma0 (acc.getD 14 0) + acc.getD 15 0)
      extendSched n (x :: acc)

/-- One SHA-256 compression round on the registers, for round constant and
schedule word `kw`. -/
def roundStep (s : Hash8) (kw : Nat × Nat) : Hash8 :=
  let t1 := w32 (s.h + bigSigma1 s.e + chf s.e s.f s.g + kw.1 + kw.2)
  let t2 := w32 (bigSigma0 s.a + majf s.a s.b s.c)
  ⟨w32 (t1 + t2), s.a, s.b, s.c, w32 (s.d + t1), s.e, s.f, s.g⟩

/-- SHA-256 compression of one 16-word block into the running hash. -/
def compress (hs : Hash8) (block : List Nat) : Hash8 :=
  let ws := extendSched 48 block.reverse
  let r := (roundK.zip ws).foldl roundStep hs
  ⟨w32 (hs.a + r.a), w32 (hs.b + r.b), w32 (hs.c + r.c), w32 (hs.d + r.d),
   w32 (hs.e + r.e), w32 (hs.f + r.f), w32 (hs.g + r.g), w32 (hs.h + r.h)⟩

/-- Group a byte list into big-endian 32-bit words (four bytes per word). -/
def toWords : List Nat → List Nat
  | a :: b :: c :: d :: rest => (((a * 256 + b) * 256 + c) * 256 + d) :: toWords rest
  | _ => []

/-- Big-endian 8-byte encoding of a (length) value. -/
def lenBytes8 (n : Nat) : List Nat :=
  [n / 2 ^ 56 % 256, n / 2 ^ 48 % 256, n / 2 ^ 40 % 256, n / 2 ^ 32 % 256,
   n / 2 ^ 24 % 256, n / 2 ^ 16 % 256, n / 2 ^ 8 % 256, n % 256]

/-- SHA-256 padding: append `0x80`, zero bytes to 56 mod 64, then the
bit length as an 8-byte big-endian value. -/
def padMsg (bs : List Nat) : List Nat :=
  bs ++ 128 :: List.replicate ((64 - (bs.length + 9) % 64) % 64) 0 ++ lenBytes8 (8 * bs.length)

/-- Compress `n` successive 16-word blocks from `ws` into the hash state. -/
def processWords : Nat → Hash8 → List Nat → Hash8
  | 0, hs, _ => hs
  | n + 1, hs, ws => processWords n (compress hs (ws.take 16)) (ws.drop 16)

/-- Big-endian bytes of a 32-bit word. -/
def wordBytes (w : Nat) : List Nat :=
  [w / 2 ^ 24 % 256, w / 2 ^ 16 % 256, w / 2 ^ 8 % 256, w % 256]

/-- SHA-256 of a byte list, as the 32-byte digest. -/
def sha256 (bs : List Nat) : List Nat :=
  let ws := toWords (padMsg bs)
  let hs := processWords (ws.length / 16) initH ws
  wordBytes hs.a ++ wordBytes hs.b ++ wordBytes hs.c ++ wordBytes hs.d ++
  wordBytes hs.e ++ wordBytes hs.f ++ wordBytes hs.g ++ wordBytes hs.h

/-- The sixteen lowercase hexadecimal digits. -/
def hexDigits : List Char := "0123456789abcdef".data

/-- Lowercase hex digit for a value `n < 16`. -/
def hexChar (n : Nat) : Char := hexDigits.getD n 'x'

/-- Two lowercase hex digits of one byte. -/
def byteHex (b : Nat) : List Char := [hexChar (b / 16 % 16), hexChar (b % 16)]

/-- Concatenation of the images of a list-valued function. -/
def concatMapL {α β : Type} (f : α → List β) : List α → List β
  | [] => []
  | a :: as => f a ++ concatMapL f as

/-- Lowercase hexadecimal text of a byte list (Python `hexdigest`). -/
def hexOfBytes (bs : List Nat) : String := String.mk (concatMapL byteHex bs)

/-- UTF-8 bytes of one character. -/
def utf8Char (c : Char) : List Nat :=
  let n := c.toNat
  if n < 128 then [n]
  else if n < 2048 then [192 + n / 64, 128 + n % 64]
  else if n < 65536 then [224 + n / 4096, 128 + n / 64 % 64, 128 + n % 64]
  else [240 + n / 262144, 128 + n / 4096 % 64, 128 + n / 64 % 64, 128 + n % 64]

/-- UTF-8 encoding of a string (Python `str.encode("utf-8")`). -/
def utf8 (s : String) : List Nat := concatMapL utf8Char s.data

/-- `make_stamp` of clockke_run_v2_1.py / clockke_verify_v2_1.py /
clockke_desktop_v2_1.py:
`stamp_k := sha256(prev_stamp || sha256(payload_bytes).hexdigest() || time_utc_str)`.
Python's `(prev_stamp or "")` equals `prev_stamp` for strings, since the
only falsy string is `""` itself. -/
def make_stamp (prev_stamp payload_str time_utc_str : String) : String :=
  let payload_bytes := utf8 payload_str
  let h_payload := utf8 (hexOfBytes (sha256 payload_bytes))
  let prev_bytes := utf8 prev_stamp
  let time_bytes := utf8 time_utc_str
  hexOfBytes (sha256 (prev_bytes ++ h_payload ++ time_bytes))

/-- Modelled from the spec (section 4.4):
`stamp = SHA256( bytes(prev_stamp) ++ hex(SHA256(bytes(payload))) ++ bytes(time_utc) )`
returned as lowercase hex. Used to compare the code's `make_stamp` against
the specified construction. -/
def makeStampSpec (prev payload time : String) : String :=
  hexOfBytes (sha256 (utf8 prev ++ utf8 (hexOfBytes (sha256 (utf8 payload))) ++ utf8 time))

/-- The variant the spec warns against: the inner digest spliced in as raw
bytes instead of hex text. Used only to show the two constructions differ. -/
def makeStampRawInner (prev payload time : String) : String :=
  hexOfBytes (sha256 (utf8 prev ++ sha256 (utf8 payload) ++ utf8 time))

/-- A stored tick record as seen by verification: the fields of one CSV row
(clockke_verify_v2_1.py) or of one in-memory row tuple (verify_rows in
clockke_desktop_v2_1.py) that the verifier reads. -/
structure Row where
  tick_index : String
  time_utc : String
  final_align : String
  band : String
  stamp : String

/-- The payload string `f"{time_utc}|{final_align_str}|{band}"`. -/
def payloadOf (r : Row) : String := r.time_utc ++ "|" ++ r.final_align ++ "|" ++ r.band

/-- The stamp the verifier recomputes for a record given the previous stamp. -/
def expectedStamp (prev : String) (r : Row) : String := make_stamp prev (payloadOf r) r.time_utc

/-- Outcome of verification: success with the count verified, or the first
mismatch with its tick index, stored stamp and expected stamp. -/
inductive VerifyResult where
  | ok (count : Nat)
  | fail (tickIndex stored expected : String)
deriving DecidableEq

/-- The verification loop of `verify_file` (clockke_verify_v2_1.py, lines
41-60) and `verify_rows` (clockke_desktop_v2_1.py): recompute each expected
stamp, stop at the first mismatch, otherwise advance `prev` to the stored
stamp and count the record. -/
def verifyFrom (prev : String) (count : Nat) : List Row → VerifyResult
  | [] => .ok count
  | r :: rest =>
      let expected := expectedStamp prev r
      if expected ≠ r.stamp then .fail r.tick_index r.stamp expected
      else verifyFrom r.stamp (count + 1) rest

/-- Whole-sequence verification, replaying the chain from the empty
`prev_stamp` with count 0. -/
def verify_rows (rows : List Row) : VerifyResult := verifyFrom "" 0 rows

/-- Chain validity from a given previous stamp: every record's stored stamp
matches the recomputed one. -/
def chainOkFrom (prev : String) : List Row → Bool
  | [] => true
  | r :: rest => (expectedStamp prev r == r.stamp) && chainOkFrom r.stamp rest

/-- The stamp at the end of a record list, seen from `prev`. -/
def lastStampFrom (prev : String) : List Row → String
  | [] => prev
  | r :: rest => lastStampFrom r.stamp rest

/-- Single-character change: the two strings agree except at one position,
where they hold different characters. -/
def oneCharDiff (s s' : String) : Prop :=
  ∃ pre c c' suf, c ≠ c' ∧ s.data = pre ++ c :: suf ∧ s'.data = pre ++ c' :: suf

/-- `r'` is `r` with a single character changed in exactly one of
`final_align`, `band` or `time_utc`; the stored stamp and tick index are
untouched. -/
def tamperedRow (r r' : Row) : Prop :=
  r'.tick_index = r.tick_index ∧ r'.stamp = r.stamp ∧
    ((oneCharDiff r.time_utc r'.time_utc ∧ r'.final_align = r.final_align ∧ r'.band = r.band) ∨
     (r'.time_utc = r.time_utc ∧ oneCharDiff r.final_align r'.final_align ∧ r'.band = r.band) ∨
     (r'.time_utc = r.time_utc ∧ r'.final_align = r.final_align ∧ oneCharDiff r.band r'.band))

/-- The per-tick data the run loop records: the stamped triple plus the
numeric columns (`tick_ms`, `dt_ms`, `a_stress`) that do not enter the stamp. -/
structure TickObs where
  time_utc : String
  final_align : String
  band : String
  tick_ms : ℚ
  dt_ms : ℚ
  a_stress : ℚ

/-- The `(time_utc, final_align, band)` triple of a tick. -/
def tripleOf (o : TickObs) : String × String × String := (o.time_utc, o.final_align, o.band)

/-- The stamp sequence a run produces (clockke_run_v2_1.py, lines 256-260):
each tick stamps `f"{time_utc}|{final_align_str}|{band}"` against the
previous stamp and the chain tail advances to the new stamp. -/
def runStamps (prev : String) : List TickObs → List String
  | [] => []
  | o :: rest =>
      let s := make_stamp prev (o.time_utc ++ "|" ++ o.final_align ++ "|" ++ o.band) o.time_utc
      s :: runStamps s rest

/-- `csv.DictReader` row access: `none` when the key is not a header column
(Python raises `KeyError`), otherwise the value at the column's position,
which is itself `none` when the data row is shorter than the header
(`DictReader` fills missing values with `None`). -/
def dictLookup (header vals : List String) (k : String) : Option (Option String) :=
  match header.findIdx? (fun h => h == k) with
  | none => none
  | some i => some vals[i]?

/-- Python string formatting of a possibly-`None` value: `f"{None}"` is
the text `None`. -/
def pyStr : Option String → String
  | none => "None"
  | some s => s

/-- The `verify_file` loop of clockke_verify_v2_1.py over parsed CSV rows,
exceptions modelled by `Except.error`: a field access with the column
missing from the header raises `KeyError`; a `None` `time_utc` value
reaches `time_utc_str.encode` inside `make_stamp` and raises
`AttributeError`; otherwise a stored stamp differing from (or missing
against) the expected one returns the chain-failure outcome, printing the
stored value Python-style. -/
def verifyCSVFrom (header : List String) (prev : String) (count : Nat) :
    List (List String) → Except String VerifyResult
  | [] => Except.ok (VerifyResult.ok count)
  | vals :: rest =>
      match dictLookup header vals "tick_index" with
      | none => Except.error "KeyError: tick_index"
      | some tickIdx =>
      match dictLookup header vals "time_utc" with
      | none => Except.error "KeyError: time_utc"
      | some timeUtc =>
      match dictLookup header vals "final_align" with
      | none => Except.error "KeyError: final_align"
      | some finalAlign =>
      match dictLookup header vals "band" with
      | none => Except.error "KeyError: band"
      | some bandv =>
      match dictLookup header vals "stamp" with
      | none => Except.error "KeyError: stamp"
      | some stored =>
      match timeUtc with
      | none => Except.error "AttributeError: NoneType object has no attribute encode"
      | some timeStr =>
          let payload := timeStr ++ "|" ++ pyStr finalAlign ++ "|" ++ pyStr bandv
          let expected := make_stamp prev payload timeStr
          if stored ≠ some expected then
            Except.ok (VerifyResult.fail (pyStr tickIdx) (pyStr stored) expected)
          else
            verifyCSVFrom header (pyStr stored) (count + 1) rest

/-- The exported CSV header row (both front-ends). -/
def hdr8 : List String :=
  ["tick_index", "time_utc", "final_align", "band", "stamp", "tick_ms", "dt_ms", "a_stress"]

/-- `BASELINE_A = 0.02`, baseline stability. -/
def BASELINE_A : ℚ := 0.02

/-- `JITTER_GAIN = 0.15`. -/
def JITTER_GAIN : ℚ := 0.15

/-- `FREEZE_MULT = 1.5`. -/
def FREEZE_MULT : ℚ := 1.5

/-- `FREEZE_PENALTY = 0.05`. -/
def FREEZE_PENALTY : ℚ := 0.05

/-- `NOISE_AMPL = 0.01`. -/
def NOISE_AMPL : ℚ := 0.01

/-- `source_a_raw` of clockke_desktop_v2_1.py (lines 133-173), with the
random draw `rng_obj.uniform(-1.0, 1.0)` passed in as `noise_unit`; the CLI
version (clockke_run_v2_1.py, lines 115-154) is the same function with
`a_stress = 0`. Note the freeze penalty is guarded by `tick_ms > 0.0`. -/
def source_a_raw (dt_ms tick_ms a_stress noise_unit : ℚ) : ℚ :=
  let jitter := if dt_ms ≤ 0 ∨ tick_ms ≤ 0 then 0 else (dt_ms - tick_ms) / max tick_ms 1
  let base0 := BASELINE_A + a_stress
  let jitter_term := -JITTER_GAIN * jitter
  let base := if tick_ms > 0 ∧ dt_ms > FREEZE_MULT * tick_ms then base0 - FREEZE_PENALTY else base0
  let noise_term := NOISE_AMPL * noise_unit
  base + jitter_term + noise_term

/-- Modelled from the spec (claim C4): identical to `source_a_raw` except
that the freeze penalty is applied exactly when `dt_ms > 1.5 * tick_ms`,
with no `tick_ms > 0` guard. -/
def source_a_raw_claimed (dt_ms tick_ms a_stress noise_unit : ℚ) : ℚ :=
  let jitter := if dt_ms ≤ 0 ∨ tick_ms ≤ 0 then 0 else (dt_ms - tick_ms) / max tick_ms 1
  let base0 := BASELINE_A + a_stress
  let jitter_term := -JITTER_GAIN * jitter
  let base := if dt_ms > FREEZE_MULT * tick_ms then base0 - FREEZE_PENALTY else base0
  let noise_term := NOISE_AMPL * noise_unit
  base + jitter_term + noise_term

/-- The corrected reading of claim C4, written spec-style as a sum of the
baseline, the stress offset, a freeze deduction applied exactly when
`tick_ms > 0` and `dt_ms > 1.5 * tick_ms`, the jitter term and the noise
term. -/
def source_a_raw_amendedSpec (dt_ms tick_ms a_stress noise_unit : ℚ) : ℚ :=
  BASELINE_A + a_stress -
    (if 0 < tick_ms ∧ FREEZE_MULT * tick_ms < dt_ms then FREEZE_PENALTY else 0) -
  JITTER_GAIN * (if dt_ms ≤ 0 ∨ tick_ms ≤ 0 then 0 else (dt_ms - tick_ms) / max tick_ms 1) +
  NOISE_AMPL * noise_unit

/-- `classify_band` (clockke_run_v2_1.py lines 88-105, clockke_desktop_v2_1.py
lines 106-123), over any linearly ordered field so it is executable on `ℚ`
and statable on `ℝ`. -/
def classify_band {α : Type} [LinearOrderedField α] (a_out : α) : String :=
  if a_out ≥ 0.80 then "A+"
  else if a_out ≥ 0.40 then "A"
  else if a_out ≥ 0.10 then "B"
  else if a_out ≥ -0.10 then "C"
  else "D"

/-- `EPS_A = 1e-6`, clamp margin for `a_raw`. -/
def EPS_A : ℝ := 1e-6

/-- `EPS_W = 1e-9`, divisor floor. -/
def EPS_W : ℝ := 1e-9

/-- `DECAY_W = 0.995`, exponential decay factor for past evidence. -/
def DECAY_W : ℝ := 0.995

/-- `W_DEFAULT = 1.0`, weight per tick. -/
def W_DEFAULT : ℝ := 1.0

/-- `clamp_a`: clamp into `(-1 + EPS_A, +1 - EPS_A)`. -/
noncomputable def clamp_a (a : ℝ) : ℝ :=
  if a < -1 + EPS_A then -1 + EPS_A
  else if a > 1 - EPS_A then 1 - EPS_A
  else a

/-- `atanh_safe`: `0.5 * (log1p x - log1p (-x))`, with `log1p t = log (1 + t)`. -/
noncomputable def atanh_safe (x : ℝ) : ℝ := 0.5 * (Real.log (1 + x) - Real.log (1 - x))

/-- The kernel accumulators `U` (weighted evidence) and `W` (weight). -/
structure KernelState where
  U : ℝ
  W : ℝ

/-- One kernel update: `U' = decay * U + weight * u`, `W' = decay * W + weight`. -/
def kstep (decay weight : ℝ) (s : KernelState) (u : ℝ) : KernelState :=
  ⟨decay * s.U + weight * u, decay * s.W + weight⟩

/-- The floored divisor: `W` if `W > EPS_W` else `EPS_W`. -/
noncomputable def denomOf (s : KernelState) : ℝ := if s.W > EPS_W then s.W else EPS_W

/-- The kernel output `a_out = tanh(U / denom)`. -/
noncomputable def kernelOut (s : KernelState) : ℝ := Real.tanh (s.U / denomOf s)

/-- Iterated kernel updates over a list of transformed inputs. -/
def runK (decay weight : ℝ) (s : KernelState) (us : List ℝ) : KernelState :=
  us.foldl (kstep decay weight) s

/-- Kernel states reachable across a session: the all-zero start, then one
`kstep` with the session constants per tick, the input being the
clamp-and-atanh transform of an arbitrary raw alignment. -/
inductive Reachable : KernelState → Prop where
  | init : Reachable ⟨0, 0⟩
  | step (s : KernelState) (a_raw : ℝ) :
      Reachable s → Reachable (kstep DECAY_W W_DEFAULT s (atanh_safe (clamp_a a_raw)))

/-- The largest transformed magnitude the clamp admits. -/
noncomputable def umax : ℝ := atanh_safe (1 - EPS_A)

/-- The value the 9-fractional-digit `final_align` string `f"{x:+.9f}"`
denotes: `x` rounded to the nearest multiple of `10^-9`. -/
noncomputable def represented (x : ℝ) : ℝ := (round (x * 10 ^ 9) : ℤ) / 10 ^ 9

lemma length_sha256 (bs : List Nat) : (sha256 bs).length = 32 := by
  simp [sha256, wordBytes]

lemma length_concatMapL_byteHex (bs : List Nat) :
    (concatMapL byteHex bs).length = 2 * bs.length := by
  induction bs with
  | nil => rfl
  | cons b bs ih => simp [concatMapL, byteHex, ih]; ring

lemma hexChar_mem_of_mod (n : Nat) : hexChar (n % 16) ∈ hexDigits := by
  have hlt : n % 16 < 16 := Nat.mod_lt _ (by norm_num)
  have hall : ∀ m, m < 16 → hexChar m ∈ hexDigits := by decide
  exact hall _ hlt

lemma mem_hexDigits_of_mem_concatMapL (c : Char) (bs : List Nat)
    (hc : c ∈ concatMapL byteHex bs) : c ∈ hexDigits := by
  induction bs with
  | nil => simp [concatMapL] at hc
  | cons b bs ih =>
      simp only [concatMapL, List.mem_append] at hc
      rcases hc with hc | hc
      · simp only [byteHex, List.mem_cons, List.not_mem_nil, or_false] at hc
        rcases hc with hc | hc
        · rw [hc]; exact hexChar_mem_of_mod (b / 16)
        · rw [hc]; exact hexChar_mem_of_mod b
      · exact ih hc

/-- C1: for every `prev_stamp`, `payload` and `time_utc` string, `make_stamp`
equals SHA-256 of the UTF-8 bytes of `prev_stamp`, followed by the lowercase
hex text of SHA-256 of the payload's UTF-8 bytes, followed by the UTF-8
bytes of `time_utc`, rendered as a 64-character lowercase hexadecimal
digest; and the construction with the inner digest spliced in as raw bytes
yields a different stamp. -/
theorem C1_make_stamp_correct :
    (∀ prev payload time : String,
        make_stamp prev payload time = makeStampSpec prev payload time ∧
        (make_stamp prev payload time).length = 64 ∧
        ((make_stamp prev payload time).data.all fun c => decide (c ∈ hexDigits)) = true) ∧
    make_stamp "" "x" "t" ≠ makeStampRawInner "" "x" "t" := by
  constructor
  · intro prev payload time
    refine ⟨rfl, ?_, ?_⟩
    · have h : (make_stamp prev payload time).length =
          (concatMapL byteHex
            (sha256 (utf8 prev ++ utf8 (hexOfBytes (sha256 (utf8 payload))) ++ utf8 time))).length :=
        rfl
      rw [h, length_concatMapL_byteHex, length_sha256]
    · rw [List.all_eq_true]
      intro c hc
      rw [decide_eq_true_iff]
      exact mem_hexDigits_of_mem_concatMapL c _ hc
  · decide

lemma verifyFrom_of_chainOk (rows : List Row) :
    ∀ prev count, chainOkFrom prev rows = true →
      verifyFrom prev count rows = VerifyResult.ok (count + rows.length) := by
  induction rows with
  | nil => intro prev count _; simp [verifyFrom]
  | cons r rest ih =>
      intro prev count hok
      simp only [chainOkFrom, Bool.and_eq_true, beq_iff_eq] at hok
      simp only [verifyFrom]
      rw [if_neg (by simp [hok.1])]
      rw [ih r.stamp (count + 1) hok.2]
      simp only [List.length_cons]
      congr 1
      omega

lemma chainOkFrom_append (pre : List Row) :
    ∀ prev rows, chainOkFrom prev (pre ++ rows) = true ↔
      (chainOkFrom prev pre = true ∧ chainOkFrom (lastStampFrom prev pre) rows = true) := by
  induction pre with
  | nil => intro prev rows; simp [chainOkFrom, lastStampFrom]
  | cons r pre ih =>
      intro prev rows
      simp only [List.cons_append, chainOkFrom, Bool.and_eq_true, lastStampFrom,
        List.append_eq]
      rw [ih]
      tauto

lemma verifyFrom_append_fail (pre : List Row) :
    ∀ prev count (r : Row) (rest : List Row), chainOkFrom prev pre = true →
      expectedStamp (lastStampFrom prev pre) r ≠ r.stamp →
      verifyFrom prev count (pre ++ r :: rest) =
        VerifyResult.fail r.tick_index r.stamp (expectedStamp (lastStampFrom prev pre) r) := by
  induction pre with
  | nil =>
      intro prev count r rest _ hne
      simp only [List.nil_append, lastStampFrom] at hne ⊢
      simp [verifyFrom, hne]
  | cons q pre ih =>
      intro prev count r rest hok hne
      simp only [chainOkFrom, Bool.and_eq_true, beq_iff_eq] at hok
      simp only [List.cons_append, verifyFrom, hok.1]
      rw [if_neg (by simp)]
      exact ih q.stamp (count + 1) r rest hok.2 hne

/-- C2: verification replays the chain from the empty `prev_stamp`: the
empty sequence verifies with count 0; a sequence whose every stored stamp
matches the recomputed one verifies with its length as the count; and when
a prefix verifies but the next record's stored stamp differs from the
expected one, the result is the failure report carrying that record's
tick index, stored stamp and expected stamp, independently of whatever
records follow (they are never examined). The embedding is a pure function
of the record list, so the input sequence is never mutated. -/
theorem C2_verify_replay :
    verify_rows [] = VerifyResult.ok 0 ∧
    (∀ rows : List Row, chainOkFrom "" rows = true →
        verify_rows rows = VerifyResult.ok rows.length) ∧
    (∀ (pre : List Row) (r : Row) (rest rest' : List Row),
        chainOkFrom "" pre = true →
        expectedStamp (lastStampFrom "" pre) r ≠ r.stamp →
        verify_rows (pre ++ r :: rest) =
          VerifyResult.fail r.tick_index r.stamp (expectedStamp (lastStampFrom "" pre) r) ∧
        verify_rows (pre ++ r :: rest) = verify_rows (pre ++ r :: rest')) := by
  refine ⟨rfl, ?_, ?_⟩
  · intro rows hok
    have := verifyFrom_of_chainOk rows "" 0 hok
    simpa [verify_rows] using this
  · intro pre r rest rest' hok hne
    constructor
    · exact verifyFrom_append_fail pre "" 0 r rest hok hne
    · simp only [verify_rows]
      rw [verifyFrom_append_fail pre "" 0 r rest hok hne,
        verifyFrom_append_fail pre "" 0 r rest' hok hne]

/-- A witness record whose stored stamp is the genuinely recomputed one. -/
def wrow : Row := ⟨"1", "T", "+0.1", "C", make_stamp "" "T|+0.1|C" "T"⟩

/-- The witness record with one character of `band` changed. -/
def wrowBand : Row := ⟨"1", "T", "+0.1", "D", make_stamp "" "T|+0.1|C" "T"⟩

/-- A record whose stored stamp is wrong. -/
def wbad : Row := ⟨"1", "T", "+0.1", "C", "00"⟩

/-- C2 witness: the three behaviours at concrete inputs. -/
theorem C2_verify_replay_witness :
    verify_rows [] = VerifyResult.ok 0 ∧
    verify_rows [wrow] = VerifyResult.ok 1 ∧
    verify_rows ([] ++ wbad :: [wrow]) =
      VerifyResult.fail "1" "00" (expectedStamp (lastStampFrom "" []) wbad) ∧
    verify_rows ([] ++ wbad :: [wrow]) = verify_rows ([] ++ wbad :: []) :=
  ⟨C2_verify_replay.1,
   C2_verify_replay.2.1 [wrow] (by decide),
   (C2_verify_replay.2.2 [] wbad [wrow] [] rfl (by decide)).1,
   (C2_verify_replay.2.2 [] wbad [wrow] [] rfl (by decide)).2⟩

/-- C3: in a valid chain, replacing record `k` by a copy with a single
character changed in `final_align`, `band` or `time_utc` makes verification
report its first mismatch exactly at record `k`'s tick index — with the
stored and recomputed stamps — never at an earlier record, unless the
recomputed stamp of the tampered record coincides with the stored one
(an outright SHA-256 collision), in which case the whole chain still
verifies. -/
theorem C3_tamper_detection (pre : List Row) (r : Row) (rest : List Row) (r' : Row)
    (hvalid : chainOkFrom "" (pre ++ r :: rest) = true)
    (htamper : tamperedRow r r') :
    verify_rows (pre ++ r' :: rest) =
      if expectedStamp (lastStampFrom "" pre) r' = r.stamp
      then VerifyResult.ok (pre ++ r :: rest).length
      else VerifyResult.fail r.tick_index r.stamp
             (expectedStamp (lastStampFrom "" pre) r') := by
  obtain ⟨hidx, hstamp, _⟩ := htamper
  rw [chainOkFrom_append] at hvalid
  obtain ⟨hpre, hrs⟩ := hvalid
  simp only [chainOkFrom, Bool.and_eq_true, beq_iff_eq] at hrs
  by_cases hcol : expectedStamp (lastStampFrom "" pre) r' = r.stamp
  · rw [if_pos hcol]
    have hok : chainOkFrom "" (pre ++ r' :: rest) = true := by
      rw [chainOkFrom_append]
      refine ⟨hpre, ?_⟩
      simp only [chainOkFrom, Bool.and_eq_true, beq_iff_eq]
      exact ⟨by rw [hcol, hstamp], by rw [hstamp]; exact hrs.2⟩
    have := verifyFrom_of_chainOk (pre ++ r' :: rest) "" 0 hok
    simp only [verify_rows]
    rw [this]
    simp
  · rw [if_neg hcol]
    have hne : expectedStamp (lastStampFrom "" pre) r' ≠ r'.stamp := by
      rw [hstamp]; exact hcol
    have := verifyFrom_append_fail pre "" 0 r' rest hpre hne
    simp only [verify_rows]
    rw [this, hidx, hstamp]

/-- C3 witness: a concrete one-record valid chain with the band character
changed; the recomputed stamp differs, so the if-branch reports the
mismatch at the record's own tick index. -/
theorem C3_tamper_detection_witness :
    verify_rows ([] ++ wrowBand :: []) =
      if expectedStamp (lastStampFrom "" []) wrowBand = wrow.stamp
      then VerifyResult.ok ([] ++ wrow :: []).length
      else VerifyResult.fail wrow.tick_index wrow.stamp
             (expectedStamp (lastStampFrom "" []) wrowBand) :=
  C3_tamper_detection [] wrow [] wrowBand (by decide)
    ⟨rfl, rfl, Or.inr (Or.inr ⟨rfl, rfl, [], 'C', 'D', [], by decide, rfl, rfl⟩)⟩

lemma runStamps_congr (l1 : List TickObs) :
    ∀ (l2 : List TickObs) (prev : String), l1.map tripleOf = l2.map tripleOf →
      runStamps prev l1 = runStamps prev l2 := by
  induction l1 with
  | nil =>
      intro l2 prev h
      cases l2 with
      | nil => rfl
      | cons o l2 => simp at h
  | cons o l1 ih =>
      intro l2 prev h
      cases l2 with
      | nil => simp at h
      | cons o' l2 =>
          simp only [List.map_cons, List.cons.injEq, tripleOf, Prod.mk.injEq] at h
          obtain ⟨⟨ht, hfa, hb⟩, htail⟩ := h
          simp only [runStamps, ht, hfa, hb]
          rw [ih l2 _ htail]

/-- C9: stamp generation is deterministic — two runs whose recorded
`(time_utc, final_align, band)` triples coincide produce identical stamp
sequences from the empty initial `prev_stamp`, whatever their `tick_ms`,
`dt_ms` and `a_stress` columns were. -/
theorem C9_chain_determinism (l1 l2 : List TickObs)
    (h : l1.map tripleOf = l2.map tripleOf) :
    runStamps "" l1 = runStamps "" l2 :=
  runStamps_congr l1 l2 "" h

/-- C9 witness: two one-tick runs differing in cadence, elapsed time and
stress but agreeing on the stamped triple. -/
theorem C9_chain_determinism_witness :
    runStamps "" [⟨"T", "+0.1", "C", 1000, 1000, 0⟩] =
      runStamps "" [⟨"T", "+0.1", "C", 250, 999, 1 / 100⟩] :=
  C9_chain_determinism [⟨"T", "+0.1", "C", 1000, 1000, 0⟩]
    [⟨"T", "+0.1", "C", 250, 999, 1 / 100⟩] rfl

/-- C8: no `MalformedRecordError` exists. A data row missing its stamp value
(shorter than the header; `csv.DictReader` fills the value with `None`)
is reported through the ordinary chain-mismatch path — first mismatch at
that row, stored stamp printed as `None` — indistinguishable from a chain
integrity failure; and a column missing from the header only raises a bare
`KeyError` naming the field, not the row. -/
theorem C8_malformed_record_conflated :
    verifyCSVFrom hdr8 "" 0 [["1", "T", "+0.1", "C"]] =
      Except.ok (VerifyResult.fail "1" "None" (make_stamp "" "T|+0.1|C" "T")) ∧
    verifyCSVFrom ["tick_index", "time_utc", "final_align", "stamp"] "" 0
        [["1", "T", "+0.1", "s"]] =
      Except.error "KeyError: band" :=
  ⟨rfl, rfl⟩

/-- C4 counterexample: at `dt_ms = 1`, `tick_ms = 0`, `a_stress = 0`,
`u = 0` the code skips the freeze penalty (its guard requires
`tick_ms > 0`) and returns `0.02`, while the claimed rule
"reduced by 0.05 exactly when dt_ms > 1.5 * tick_ms" demands `-0.03`. -/
theorem C4_claim_false_at_zero_cadence :
    source_a_raw 1 0 0 0 ≠ source_a_raw_claimed 1 0 0 0 := by
  norm_num [source_a_raw, source_a_raw_claimed, BASELINE_A, JITTER_GAIN,
    FREEZE_MULT, FREEZE_PENALTY, NOISE_AMPL]

/-- C4 amended: the alignment source returns
`BASELINE_A + a_stress`, minus `FREEZE_PENALTY` exactly when `tick_ms > 0`
and `dt_ms > 1.5 * tick_ms`, minus `JITTER_GAIN` times the jitter (zero
when `dt_ms ≤ 0` or `tick_ms ≤ 0`, else `(dt_ms - tick_ms) / max tick_ms 1`),
plus `NOISE_AMPL` times the uniform draw. -/
theorem C4_source_a_raw_amended (dt_ms tick_ms a_stress noise_unit : ℚ) :
    source_a_raw dt_ms tick_ms a_stress noise_unit =
      source_a_raw_amendedSpec dt_ms tick_ms a_stress noise_unit := by
  simp only [source_a_raw, source_a_raw_amendedSpec]
  split_ifs <;> ring

/-- C5: the band classifier is total with the five half-open bands
partitioning the real line — each value satisfies exactly one of the five
characterizations — and each boundary value resolves to the higher band. -/
theorem C5_classify_band_partition :
    (∀ a : ℝ,
      (classify_band a = "A+" ↔ 0.80 ≤ a) ∧
      (classify_band a = "A" ↔ 0.40 ≤ a ∧ a < 0.80) ∧
      (classify_band a = "B" ↔ 0.10 ≤ a ∧ a < 0.40) ∧
      (classify_band a = "C" ↔ -0.10 ≤ a ∧ a < 0.10) ∧
      (classify_band a = "D" ↔ a < -0.10)) ∧
    classify_band (0.80 : ℝ) = "A+" ∧ classify_band (0.40 : ℝ) = "A" ∧
    classify_band (0.10 : ℝ) = "B" ∧ classify_band (-0.10 : ℝ) = "C" := by
  constructor
  · intro a
    simp only [classify_band, ge_iff_le]
    split_ifs with h1 h2 h3 h4 <;>
      refine ⟨?_, ?_, ?_, ?_, ?_⟩ <;>
      constructor <;>
      intro h <;>
      first
        | rfl
        | exact absurd h (by decide)
        | linarith
        | (constructor <;> linarith)
  · refine ⟨?_, ?_, ?_, ?_⟩ <;> (simp only [classify_band]; norm_num)

lemma runK_one_one (us : List ℝ) :
    ∀ U W : ℝ, runK 1 1 ⟨U, W⟩ us = ⟨U + us.sum, W + us.length⟩ := by
  induction us with
  | nil => intro U W; simp [runK]
  | cons u us ih =>
      intro U W
      simp only [runK, List.foldl_cons] at *
      rw [show kstep 1 1 ⟨U, W⟩ u = (⟨U + u, W + 1⟩ : KernelState) by
        simp [kstep]]
      rw [ih]
      simp only [List.sum_cons, List.length_cons]
      congr 1 <;> push_cast <;> ring

/-- C6: with `decay = 1` and `weight = 1` throughout, the kernel output
after at least one step from the zero state is `tanh` of the arithmetic
mean of the transformed inputs. -/
theorem C6_unit_decay_mean (us : List ℝ) (h : us ≠ []) :
    kernelOut (runK 1 1 ⟨0, 0⟩ us) = Real.tanh (us.sum / (us.length : ℝ)) := by
  rw [runK_one_one]
  have h1 : (1 : ℝ) ≤ (us.length : ℝ) := by
    have := List.length_pos.mpr h
    exact_mod_cast this
  have hW : ((0 : ℝ) + (us.length : ℝ)) > EPS_W := by
    have : (EPS_W : ℝ) < 1 := by simp only [EPS_W]; norm_num
    linarith
  simp only [kernelOut, denomOf]
  rw [if_pos hW]
  simp

/-- C6 witness: one step with input 0. -/
theorem C6_unit_decay_mean_witness :
    kernelOut (runK 1 1 ⟨0, 0⟩ [(0 : ℝ)]) =
      Real.tanh (List.sum [(0 : ℝ)] / ((List.length [(0 : ℝ)] : ℕ) : ℝ)) :=
  C6_unit_decay_mean [(0 : ℝ)] (List.cons_ne_nil 0 [])

lemma runK_W_bounds (us : List ℝ) :
    ∀ s : KernelState, 1 ≤ s.W → s.W < 200 →
      1 ≤ (runK DECAY_W W_DEFAULT s us).W ∧ (runK DECAY_W W_DEFAULT s us).W < 200 := by
  induction us with
  | nil => intro s h1 h2; exact ⟨h1, h2⟩
  | cons u us ih =>
      intro s h1 h2
      simp only [runK, List.foldl_cons] at *
      apply ih
      · simp only [kstep, DECAY_W, W_DEFAULT]
        nlinarith
      · simp only [kstep, DECAY_W, W_DEFAULT]
        nlinarith

/-- C10: from the zero start with `DECAY_W = 0.995` and `W_DEFAULT = 1`,
after every tick (any nonempty input prefix) the accumulated weight
satisfies `1 ≤ W < 200`; in particular `W > EPS_W`, so the divisor-floor
fallback is never taken. -/
theorem C10_weight_bounds (us : List ℝ) (h : us ≠ []) :
    1 ≤ (runK DECAY_W W_DEFAULT ⟨0, 0⟩ us).W ∧
    (runK DECAY_W W_DEFAULT ⟨0, 0⟩ us).W < 200 ∧
    EPS_W < (runK DECAY_W W_DEFAULT ⟨0, 0⟩ us).W ∧
    denomOf (runK DECAY_W W_DEFAULT ⟨0, 0⟩ us) = (runK DECAY_W W_DEFAULT ⟨0, 0⟩ us).W := by
  obtain ⟨u, us', rfl⟩ := List.exists_cons_of_ne_nil h
  have h0 : runK DECAY_W W_DEFAULT ⟨0, 0⟩ (u :: us') =
      runK DECAY_W W_DEFAULT (kstep DECAY_W W_DEFAULT ⟨0, 0⟩ u) us' := rfl
  rw [h0]
  have hs : (kstep DECAY_W W_DEFAULT ⟨0, 0⟩ u).W = 1 := by
    simp only [kstep, DECAY_W, W_DEFAULT]
    norm_num
  have hb := runK_W_bounds us' (kstep DECAY_W W_DEFAULT ⟨0, 0⟩ u)
    (by rw [hs]) (by rw [hs]; norm_num)
  have heps : EPS_W < (runK DECAY_W W_DEFAULT (kstep DECAY_W W_DEFAULT ⟨0, 0⟩ u) us').W := by
    have : (EPS_W : ℝ) < 1 := by simp only [EPS_W]; norm_num
    linarith [hb.1]
  refine ⟨hb.1, hb.2, heps, ?_⟩
  simp only [denomOf]
  rw [if_pos heps]

lemma EPS_A_pos : (0 : ℝ) < EPS_A := by
  simp only [EPS_A]; norm_num

lemma EPS_A_lt_one : EPS_A < (1 : ℝ) := by
  simp only [EPS_A]; norm_num

lemma clamp_a_mem (a : ℝ) : -1 + EPS_A ≤ clamp_a a ∧ clamp_a a ≤ 1 - EPS_A := by
  simp only [clamp_a]
  split_ifs <;> constructor <;> linarith [EPS_A_pos, EPS_A_lt_one]

lemma atanh_safe_mono {x y : ℝ} (hx : -1 < x) (hxy : x ≤ y) (hy : y < 1) :
    atanh_safe x ≤ atanh_safe y := by
  have h1x : (0 : ℝ) < 1 + x := by linarith
  have h1y : (0 : ℝ) < 1 - y := by linarith
  have l1 : Real.log (1 + x) ≤ Real.log (1 + y) := Real.log_le_log h1x (by linarith)
  have l2 : Real.log (1 - y) ≤ Real.log (1 - x) := Real.log_le_log h1y (by linarith)
  simp only [atanh_safe]
  linarith

lemma atanh_safe_neg (x : ℝ) : atanh_safe (-x) = -atanh_safe x := by
  simp only [atanh_safe]
  rw [show (1 : ℝ) + -x = 1 - x from by ring, show (1 : ℝ) - -x = 1 + x from by ring]
  ring

lemma abs_atanh_safe_le {x : ℝ} (hlo : -(1 - EPS_A) ≤ x) (hhi : x ≤ 1 - EPS_A) :
    |atanh_safe x| ≤ umax := by
  have hx1 : (-1 : ℝ) < x := by linarith [EPS_A_pos]
  have hx2 : x < 1 := by linarith [EPS_A_pos]
  have h1 : atanh_safe x ≤ umax :=
    atanh_safe_mono hx1 hhi (by linarith [EPS_A_pos])
  have h2 : -umax ≤ atanh_safe x := by
    have h3 := atanh_safe_mono (x := -(1 - EPS_A)) (by linarith [EPS_A_pos]) hlo hx2
    rw [atanh_safe_neg] at h3
    exact h3
  exact abs_le.mpr ⟨h2, h1⟩

lemma umax_nonneg : (0 : ℝ) ≤ umax := by
  have h0 : atanh_safe 0 = 0 := by simp [atanh_safe]
  have h1 := atanh_safe_mono (x := 0) (y := 1 - EPS_A) (by norm_num)
    (by linarith [EPS_A_lt_one]) (by linarith [EPS_A_pos])
  simp only [umax]
  linarith

lemma tanh_atanh_safe {x : ℝ} (h1 : -1 < x) (h2 : x < 1) :
    Real.tanh (atanh_safe x) = x := by
  have hp : (0 : ℝ) < 1 + x := by linarith
  have hm : (0 : ℝ) < 1 - x := by linarith
  set t := atanh_safe x with ht
  have h2t : Real.exp t * Real.exp t = (1 + x) / (1 - x) := by
    rw [← Real.exp_add,
      show t + t = Real.log (1 + x) - Real.log (1 - x) from by
        rw [ht]; simp only [atanh_safe]; ring,
      Real.exp_sub, Real.exp_log hp, Real.exp_log hm]
  have hEpos : 0 < Real.exp t := Real.exp_pos t
  have hEne : Real.exp t ≠ 0 := ne_of_gt hEpos
  have htanh : Real.tanh t = (Real.exp t * Real.exp t - 1) / (Real.exp t * Real.exp t + 1) := by
    rw [Real.tanh_eq_sinh_div_cosh, Real.sinh_eq, Real.cosh_eq, Real.exp_neg]
    have hpos2 : 0 < Real.exp t * Real.exp t + 1 := by positivity
    field_simp
  rw [htanh, h2t]
  have hmne : (1 : ℝ) - x ≠ 0 := ne_of_gt hm
  field_simp
  ring

lemma tanh_le_tanh {x y : ℝ} (h : x ≤ y) : Real.tanh x ≤ Real.tanh y := by
  rw [Real.tanh_eq_sinh_div_cosh, Real.tanh_eq_sinh_div_cosh,
    div_le_div_iff₀ (Real.cosh_pos x) (Real.cosh_pos y)]
  have hs : 0 ≤ Real.sinh (y - x) := Real.sinh_nonneg_iff.mpr (by linarith)
  have hsub := Real.sinh_sub y x
  nlinarith [hsub, hs]

lemma reachable_inv {s : KernelState} (hs : Reachable s) :
    0 ≤ s.W ∧ |s.U| ≤ umax * s.W := by
  induction hs with
  | init => simp
  | step s a_raw hr ih =>
      obtain ⟨hW, hU⟩ := ih
      have hcl := clamp_a_mem a_raw
      have hu : |atanh_safe (clamp_a a_raw)| ≤ umax :=
        abs_atanh_safe_le (by linarith [hcl.1]) hcl.2
      have habsU : |s.U| ≥ 0 := abs_nonneg _
      constructor
      · simp only [kstep, DECAY_W, W_DEFAULT]
        nlinarith
      · simp only [kstep, DECAY_W, W_DEFAULT]
        have htri : |0.995 * s.U + 1 * atanh_safe (clamp_a a_raw)| ≤
            0.995 * |s.U| + |atanh_safe (clamp_a a_raw)| := by
          calc |0.995 * s.U + 1 * atanh_safe (clamp_a a_raw)| ≤
              |0.995 * s.U| + |1 * atanh_safe (clamp_a a_raw)| := abs_add _ _
            _ = 0.995 * |s.U| + |atanh_safe (clamp_a a_raw)| := by
                rw [abs_mul, abs_mul]
                norm_num
        nlinarith [umax_nonneg]

/-- C7: for every reachable kernel state and every raw input, the output
`a_out = tanh(U' / denom)` of the updated state is strictly inside
`(-1, 1)` — in fact within `±(1 - EPS_A)` — and consequently the value the
9-digit `final_align` string denotes (the output rounded to the nearest
`10^-9`) also lies strictly inside `(-1, 1)`. -/
theorem C7_output_in_open_interval (s : KernelState) (a_raw : ℝ) (hs : Reachable s) :
    (-1 < kernelOut (kstep DECAY_W W_DEFAULT s (atanh_safe (clamp_a a_raw))) ∧
      kernelOut (kstep DECAY_W W_DEFAULT s (atanh_safe (clamp_a a_raw))) < 1) ∧
    (-1 < represented (kernelOut (kstep DECAY_W W_DEFAULT s (atanh_safe (clamp_a a_raw)))) ∧
      represented (kernelOut (kstep DECAY_W W_DEFAULT s (atanh_safe (clamp_a a_raw)))) < 1) := by
  obtain ⟨hW, _⟩ := reachable_inv hs
  obtain ⟨hW0', hU'⟩ := reachable_inv (Reachable.step s a_raw hs)
  set s' := kstep DECAY_W W_DEFAULT s (atanh_safe (clamp_a a_raw)) with hsmk
  have hW1 : 1 ≤ s'.W := by
    rw [hsmk]
    simp only [kstep, DECAY_W, W_DEFAULT]
    nlinarith
  have hWpos : (0 : ℝ) < s'.W := by linarith
  have hratio : |s'.U / s'.W| ≤ umax := by
    rw [abs_div, abs_of_pos hWpos, div_le_iff₀ hWpos]
    linarith [hU']
  have htanhumax : Real.tanh umax = 1 - EPS_A := by
    simp only [umax]
    exact tanh_atanh_safe (by linarith [EPS_A_pos, EPS_A_lt_one]) (by linarith [EPS_A_pos])
  have hdenom : denomOf s' = s'.W := by
    simp only [denomOf]
    rw [if_pos]
    have : EPS_W < (1 : ℝ) := by simp only [EPS_W]; norm_num
    linarith
  have hout : kernelOut s' = Real.tanh (s'.U / s'.W) := by
    simp only [kernelOut]
    rw [hdenom]
  have htanh_hi : kernelOut s' ≤ 1 - EPS_A := by
    rw [hout, ← htanhumax]
    exact tanh_le_tanh (abs_le.mp hratio).2
  have htanh_lo : -(1 - EPS_A) ≤ kernelOut s' := by
    rw [hout]
    have h1 := tanh_le_tanh (abs_le.mp hratio).1
    rw [Real.tanh_neg, htanhumax] at h1
    exact h1
  have hb1 : -1 < kernelOut s' ∧ kernelOut s' < 1 := by
    constructor <;> [linarith [EPS_A_pos]; linarith [EPS_A_pos]]
  refine ⟨hb1, ?_⟩
  have h9 : (0 : ℝ) < 10 ^ 9 := by norm_num
  have hdist : |represented (kernelOut s') - kernelOut s'| ≤ 1 / 2 / 10 ^ 9 := by
    have hround := abs_sub_round (kernelOut s' * 10 ^ 9)
    have heq : represented (kernelOut s') - kernelOut s' =
        ((round (kernelOut s' * 10 ^ 9) : ℝ) - kernelOut s' * 10 ^ 9) / 10 ^ 9 := by
      simp only [represented]
      field_simp
      ring
    rw [heq, abs_div, abs_of_pos h9, abs_sub_comm]
    gcongr
  have hd := abs_le.mp hdist
  have hsmall : 1 / 2 / 10 ^ 9 < EPS_A := by
    simp only [EPS_A]
    norm_num
  constructor <;> linarith

/-- C7 witness: the first tick from the zero state with raw input 0. -/
theorem C7_output_in_open_interval_witness :
    (-1 < kernelOut (kstep DECAY_W W_DEFAULT ⟨0, 0⟩ (atanh_safe (clamp_a 0))) ∧
      kernelOut (kstep DECAY_W W_DEFAULT ⟨0, 0⟩ (atanh_safe (clamp_a 0))) < 1) ∧
    (-1 < represented (kernelOut (kstep DECAY_W W_DEFAULT ⟨0, 0⟩ (atanh_safe (clamp_a 0)))) ∧
      represented (kernelOut (kstep DECAY_W W_DEFAULT ⟨0, 0⟩ (atanh_safe (clamp_a 0)))) < 1) :=
  C7_output_in_open_interval ⟨0, 0⟩ 0 Reachable.init

/-- C10 witness: a single tick. -/
theorem C10_weight_bounds_witness :
    1 ≤ (runK DECAY_W W_DEFAULT ⟨0, 0⟩ [(0 : ℝ)]).W ∧
    (runK DECAY_W W_DEFAULT ⟨0, 0⟩ [(0 : ℝ)]).W < 200 ∧
    EPS_W < (runK DECAY_W W_DEFAULT ⟨0, 0⟩ [(0 : ℝ)]).W ∧
    denomOf (runK DECAY_W W_DEFAULT ⟨0, 0⟩ [(0 : ℝ)]) =
      (runK DECAY_W W_DEFAULT ⟨0, 0⟩ [(0 : ℝ)]).W :=
  C10_weight_bounds [(0 : ℝ)] (List.cons_ne_nil 0 [])

end ClockKe
